import Mathlib

/-!
Shallow embedding of `nu-command/src/conversions/into/duration.rs`.

Rust strings (`&str`) are modelled as `List Char`; byte positions are
recovered through `Char.utf8Size`, which agrees with Rust's UTF-8 encoding
width.  Rust `i64` arithmetic is modelled over `Int`: the source uses
unchecked `*` and `+=`, whose release-mode semantics is two's-complement
wrapping, written explicitly as `wrap64`.
-/

/-- The signed 64-bit minimum, `i64::MIN`. -/
def i64Min : Int := -(2 ^ 63)

/-- The signed 64-bit maximum, `i64::MAX`. -/
def i64Max : Int := 2 ^ 63 - 1

/-- Two's-complement wrap of an integer into the signed 64-bit range,
the release-mode result of an overflowing Rust `i64` operation. -/
def wrap64 (x : Int) : Int := (x + 2 ^ 63) % 2 ^ 64 - 2 ^ 63

/-- Rust `a * b` on `i64` (unchecked, so wrapping in release builds). -/
def i64Mul (a b : Int) : Int := wrap64 (a * b)

/-- Rust `a + b` on `i64` (unchecked, so wrapping in release builds). -/
def i64Add (a b : Int) : Int := wrap64 (a + b)

/-- `nu_protocol::Span`: a half-open byte range.  The source field `end`
is a Lean keyword, so it is called `stop` here. -/
structure Span where
  start : Nat
  stop : Nat
deriving DecidableEq

/-- `Span::new(start, end)`. -/
def Span.new (start stop : Nat) : Span := ⟨start, stop⟩

/-- Rust `char::is_whitespace`: the Unicode White_Space property,
listed code point by code point. -/
def rustIsWhitespace (c : Char) : Bool :=
  let n := c.toNat
  (9 ≤ n && n ≤ 13) || n == 32 || n == 133 || n == 160 || n == 5760 ||
    (8192 ≤ n && n ≤ 8202) || n == 8232 || n == 8233 || n == 8239 ||
    n == 8287 || n == 12288

/-- Byte length of a string, the Rust `str::len` of a `List Char`. -/
def utf8Len (s : List Char) : Nat := (s.map Char.utf8Size).sum

/-- Worker for whitespace splitting that tracks the byte offset of each
token.  The state is `none` between tokens and `some (start, accRev)`
inside a token, where `start` is the token's byte offset and `accRev`
its characters so far, reversed.  `pos` is the byte offset of the head
of `l`.  In the source the offset is obtained as
`addr_of(sub) - addr_of(s)`, which for a subslice is exactly the byte
offset of `sub` inside `s`; here it is tracked directly. -/
def splitWsIdxGo : List Char → Nat → Option (Nat × List Char) → List (List Char × Nat)
  | [], _, none => []
  | [], _, some (st, acc) => [(acc.reverse, st)]
  | c :: rest, pos, none =>
    if rustIsWhitespace c then
      splitWsIdxGo rest (pos + c.utf8Size) none
    else
      splitWsIdxGo rest (pos + c.utf8Size) (some (pos, [c]))
  | c :: rest, pos, some (st, acc) =>
    if rustIsWhitespace c then
      (acc.reverse, st) :: splitWsIdxGo rest (pos + c.utf8Size) none
    else
      splitWsIdxGo rest (pos + c.utf8Size) (some (st, c :: acc))

/-- `split_whitespace_indices` (duration.rs:181-186): split on runs of
whitespace and attach to each token the span
`[span.start + offset, span.start + offset + len(token))` where
`offset` is the token's byte offset within `s`. -/
def split_whitespace_indices (s : List Char) (span : Span) : List (List Char × Span) :=
  (splitWsIdxGo s 0 none).map fun p =>
    let start_offset := span.start + p.2
    (p.1, Span.new start_offset (start_offset + utf8Len p.1))

/-- `nu_protocol::Unit`, restricted to the duration units that
`DURATION_UNIT_GROUPS` can produce. -/
inductive DurationUnit where
  | Nanosecond
  | Microsecond
  | Millisecond
  | Second
  | Minute
  | Hour
  | Day
  | Week
deriving DecidableEq

/-- Modelled from the spec: the `UnitTable` realised in the source by
`DURATION_UNIT_GROUPS` (defined in nu-parser, not under src/).  Exact,
case-sensitive lookup of the ten accepted suffix spellings; `us`, `µs`
(micro sign) and `μs` (Greek mu) are synonyms for microseconds. -/
def lookupUnit (suffix : List Char) : Option DurationUnit :=
  if suffix = "ns".toList then some .Nanosecond
  else if suffix = "us".toList then some .Microsecond
  else if suffix = "µs".toList then some .Microsecond
  else if suffix = "μs".toList then some .Microsecond
  else if suffix = "ms".toList then some .Millisecond
  else if suffix = "sec".toList then some .Second
  else if suffix = "min".toList then some .Minute
  else if suffix = "hr".toList then some .Hour
  else if suffix = "day".toList then some .Day
  else if suffix = "wk".toList then some .Week
  else none

/-- Maximal leading run of ASCII decimal digits, and the rest. -/
def takeDigits : List Char → List Char × List Char
  | [] => ([], [])
  | c :: rest =>
    if c.isDigit then
      let p := takeDigits rest
      (c :: p.1, p.2)
    else
      ([], c :: rest)

/-- Numeric value of a list of ASCII decimal digits, most significant
first. -/
def digitsToNat (ds : List Char) : Nat :=
  ds.foldl (fun acc c => acc * 10 + (c.toNat - 48)) 0

/-- Strips an optional leading minus sign, reporting whether one was
present. -/
def splitSign (s : List Char) : Bool × List Char :=
  match s with
  | [] => (false, [])
  | c :: r => if c = '-' then (true, r) else (false, c :: r)

/-- The signed integer denoted by a digit run and a sign flag. -/
def signedMagnitude (neg : Bool) (ds : List Char) : Int :=
  if neg then -Int.ofNat (digitsToNat ds) else Int.ofNat (digitsToNat ds)

/-- Modelled from the spec: `nu_parser::parse_unit_value` (defined in
nu-parser, not under src/), specialised to how `string_to_duration`
consumes it.  Per spec §4.2 the token is an optional `-`, a maximal
non-empty run of decimal digits that must denote an `i64`, and a
suffix present in the unit table; anything else fails.  Fractional
literals are rejected at this layer. -/
def parse_unit_value (s : List Char) : Option (Int × DurationUnit) :=
  let sr := splitSign s
  let p := takeDigits sr.2
  if p.1 = [] ∨ p.2 = [] then none
  else
    match lookupUnit p.2 with
    | some u =>
      if i64Min ≤ signedMagnitude sr.1 p.1 ∧ signedMagnitude sr.1 p.1 ≤ i64Max then
        some (signedMagnitude sr.1 p.1, u)
      else none
    | none => none

/-- `NS_PER_SEC` (duration.rs:9). -/
def NS_PER_SEC : Int := 1000000000

/-- Help text of the parse-failure error (duration.rs:228). -/
def durationHelpText : List Char :=
  "supported units are ns, us/µs, ms, sec, min, hr, day, and wk".toList

/-- `nu_protocol::ShellError`, restricted to the variants this file
constructs.  `CantFindColumn` stands for the path-resolution failures
produced by `Value::update_cell_path` (modelled from the spec). -/
inductive ShellError where
  | CantConvertToDuration (details : List Char) (dst_span : Span) (src_span : Span)
      (help : Option (List Char))
  | OnlySupportsThisInputType (exp_input_type : List Char) (wrong_type : List Char)
      (dst_span : Span) (src_span : Span)
  | CantFindColumn (col_name : List Char) (span : Span) (src_span : Span)
deriving DecidableEq

/-- `string_to_duration` (duration.rs:199-230): parse one
`<int><unit>` token and convert to nanoseconds.  The unit match mirrors
lines 210-217; every `*` is the source's unchecked `i64`
multiplication. -/
def string_to_duration (s : List Char) (span : Span) : Except ShellError Int :=
  match parse_unit_value s with
  | some (x, u) =>
    match u with
    | .Nanosecond => .ok x
    | .Microsecond => .ok (i64Mul x 1000)
    | .Millisecond => .ok (i64Mul (i64Mul x 1000) 1000)
    | .Second => .ok (i64Mul x NS_PER_SEC)
    | .Minute => .ok (i64Mul (i64Mul x 60) NS_PER_SEC)
    | .Hour => .ok (i64Mul (i64Mul (i64Mul x 60) 60) NS_PER_SEC)
    | .Day => .ok (i64Mul (i64Mul (i64Mul (i64Mul x 24) 60) 60) NS_PER_SEC)
    | .Week => .ok (i64Mul (i64Mul (i64Mul (i64Mul (i64Mul x 7) 24) 60) 60) NS_PER_SEC)
  | none =>
    .error (ShellError.CantConvertToDuration s span span (some durationHelpText))

/-- The loop body of `compound_to_duration` (duration.rs:191-194):
parse each token and accumulate with the source's unchecked `+=`. -/
def compoundGo : List (List Char × Span) → Int → Except ShellError Int
  | [], acc => .ok acc
  | (substring, substring_span) :: rest, acc =>
    match string_to_duration substring substring_span with
    | .ok sub_ns => compoundGo rest (i64Add acc sub_ns)
    | .error e => .error e

/-- `compound_to_duration` (duration.rs:188-197). -/
def compound_to_duration (s : List Char) (span : Span) : Except ShellError Int :=
  compoundGo (split_whitespace_indices s span) 0

/-- `nu_protocol::Value` (modelled from the spec, nu-protocol is not
under src/), restricted to the variants the spec's data model names:
`Duration`, `String`, `Error`, `List`, `Record` (parallel `cols`/`vals`
as in the source's `Value::Record { cols, vals, span }` examples), and
`Int` as a representative "other" variant.  Constructor names are
lowercased because the source's variant names shadow core Lean types. -/
inductive Value where
  | int (val : Int) (span : Span)
  | string (val : List Char) (span : Span)
  | duration (val : Int) (span : Span)
  | record (cols : List (List Char)) (vals : List Value) (span : Span)
  | list (vals : List Value) (span : Span)
  | error (error : ShellError)

/-- `Value::get_type().to_string()`, modelled from the spec: the
user-facing name of the input's type, used in type-mismatch errors. -/
def Value.get_type : Value → List Char
  | .int _ _ => "int".toList
  | .string _ _ => "string".toList
  | .duration _ _ => "duration".toList
  | .record _ _ _ => "record".toList
  | .list _ _ => "list".toList
  | .error _ => "error".toList

/-- `Value::expect_span`, modelled from the spec: the span a value
carries.  `Error` carries none; `action` never reaches that case
because it matches `Error` before the catch-all. -/
def Value.expect_span : Value → Span
  | .int _ span => span
  | .string _ span => span
  | .duration _ span => span
  | .record _ _ span => span
  | .list _ span => span
  | .error _ => Span.new 0 0

/-- `action` (duration.rs:232-255): the single-value conversion. -/
def action (input : Value) (span : Span) : Value :=
  match input with
  | Value.duration _ _ => input
  | Value.string val value_span =>
    match compound_to_duration val value_span with
    | .ok v => Value.duration v span
    | .error e => Value.error e
  | Value.error _ => input
  | other =>
    Value.error (ShellError.OnlySupportsThisInputType
      ("string or duration".toList) other.get_type span other.expect_span)

/-- `nu_protocol::ast::PathMember` (modelled from the spec): one
field-name or index selector of a cell path. -/
inductive PathMember where
  | str (val : List Char) (span : Span)
  | int (val : Nat) (span : Span)
deriving DecidableEq

/-- The span carried by a path member. -/
def PathMember.span : PathMember → Span
  | .str _ sp => sp
  | .int _ sp => sp

/-- `nu_protocol::ast::CellPath` (modelled from the spec). -/
structure CellPath where
  members : List PathMember
deriving DecidableEq

/-- Looks up a column name in the parallel `cols` list of a record and
returns its position. -/
def findCol (name : List Char) (cols : List (List Char)) : Option Nat :=
  cols.findIdx? (fun c => c = name)

/-- Modelled from the spec: `Value::update_cell_path` (nu-protocol, not
under src/).  Per spec §9, a "locate, transform, rewrite" walk: follow
the members into the Record/List tree, apply the callback at the
target, rewrite in place; a member that does not resolve yields a
path-resolution failure.  The source mutates `self` and returns
`Result<(), ShellError>`; here the updated value is returned. -/
def update_cell_path (members : List PathMember) (v : Value) (f : Value → Value) :
    Except ShellError Value :=
  match members, v with
  | [], v => .ok (f v)
  | PathMember.str name mspan :: rest, Value.record cols vals span =>
    match findCol name cols with
    | some i =>
      match vals[i]? with
      | some child =>
        match update_cell_path rest child f with
        | .ok child2 => .ok (Value.record cols (vals.set i child2) span)
        | .error e => .error e
      | none => .error (ShellError.CantFindColumn name mspan span)
    | none => .error (ShellError.CantFindColumn name mspan span)
  | PathMember.int i mspan :: rest, Value.list vals span =>
    match vals[i]? with
    | some child =>
      match update_cell_path rest child f with
      | .ok child2 => .ok (Value.list (vals.set i child2) span)
      | .error e => .error e
    | none => .error (ShellError.CantFindColumn "index".toList mspan span)
  | m :: _, v => .error (ShellError.CantFindColumn "path".toList m.span v.expect_span)

/-- The path loop of `into_duration` (duration.rs:156-167): apply the
conversion at each cell path in order; the first failing update makes
the whole element that error and later paths are not attempted. -/
def update_at_paths (span : Span) (column_paths : List CellPath) (ret : Value) : Value :=
  match column_paths with
  | [] => ret
  | path :: rest =>
    match update_cell_path path.members ret (fun old => action old span) with
    | .ok ret2 => update_at_paths span rest ret2
    | .error e => Value.error e

/-- `into_duration` (duration.rs:139-172): map the per-element closure
over the pipeline input.  `PipelineData::map` over a list of values
(nu-protocol, modelled from the spec) is `List.map`; `span` stands for
`input.span().unwrap_or(call.head)` and `column_paths` for the parsed
rest arguments. -/
def into_duration (column_paths : List CellPath) (span : Span) (input : List Value) :
    List Value :=
  input.map fun v =>
    if column_paths.isEmpty then action v span
    else update_at_paths span column_paths v

/-- The nanosecond multiplier of each unit, the product of the constant
factors in duration.rs:210-217. -/
def unitMult : DurationUnit → Int
  | .Nanosecond => 1
  | .Microsecond => 1000
  | .Millisecond => 1000000
  | .Second => 1000000000
  | .Minute => 60000000000
  | .Hour => 3600000000000
  | .Day => 86400000000000
  | .Week => 604800000000000

theorem wrap64_emod (a : Int) : wrap64 a % 2 ^ 64 = a % 2 ^ 64 := by
  unfold wrap64
  omega

theorem wrap64_congr {a b : Int} (h : a % 2 ^ 64 = b % 2 ^ 64) :
    wrap64 a = wrap64 b := by
  unfold wrap64
  omega

theorem wrap64_range (a : Int) : i64Min ≤ wrap64 a ∧ wrap64 a ≤ i64Max := by
  unfold wrap64 i64Min i64Max
  omega

theorem wrap64_eq_of_range {a : Int} (h1 : i64Min ≤ a) (h2 : a ≤ i64Max) :
    wrap64 a = a := by
  unfold wrap64
  unfold i64Min at h1
  unfold i64Max at h2
  omega

theorem wrap64_mul_left (a b : Int) : wrap64 (wrap64 a * b) = wrap64 (a * b) := by
  refine wrap64_congr ?_
  rw [Int.mul_emod, wrap64_emod, ← Int.mul_emod]

/-- Wrapping is invariant modulo `2 ^ 64`. -/
theorem wrap64_ModEq (a : Int) : wrap64 a ≡ a [ZMOD 2 ^ 64] :=
  wrap64_emod a

theorem wrap64_mul_left1 (a b : Int) : wrap64 (wrap64 a * b) = wrap64 (a * b) :=
  wrap64_congr ((wrap64_ModEq a).mul_right b)

theorem wrap64_mul_left2 (a b c : Int) :
    wrap64 (wrap64 a * b * c) = wrap64 (a * b * c) :=
  wrap64_congr (((wrap64_ModEq a).mul_right b).mul_right c)

theorem wrap64_mul_left3 (a b c d : Int) :
    wrap64 (wrap64 a * b * c * d) = wrap64 (a * b * c * d) :=
  wrap64_congr ((((wrap64_ModEq a).mul_right b).mul_right c).mul_right d)

theorem wrap64_mul_left4 (a b c d e : Int) :
    wrap64 (wrap64 a * b * c * d * e) = wrap64 (a * b * c * d * e) :=
  wrap64_congr (((((wrap64_ModEq a).mul_right b).mul_right c).mul_right d).mul_right e)

/-- A successful `parse_unit_value` magnitude lies in the `i64` range. -/
theorem parse_unit_value_range {s : List Char} {x : Int} {u : DurationUnit}
    (h : parse_unit_value s = some (x, u)) : i64Min ≤ x ∧ x ≤ i64Max := by
  simp only [parse_unit_value] at h
  split at h
  · cases h
  · split at h
    · split at h
      · simp only [Option.some.injEq, Prod.mk.injEq] at h
        obtain ⟨hx, -⟩ := h
        subst hx
        assumption
      · cases h
    · cases h

/-- On a successfully parsed token, `string_to_duration` returns the
magnitude times the unit multiplier, wrapped by the unchecked
`i64` multiplications. -/
theorem string_to_duration_parsed {s : List Char} {x : Int} {u : DurationUnit}
    (sp : Span) (h : parse_unit_value s = some (x, u)) :
    string_to_duration s sp = .ok (wrap64 (x * unitMult u)) := by
  have hr := parse_unit_value_range h
  cases u <;>
    simp only [string_to_duration, h, unitMult, i64Mul, NS_PER_SEC, wrap64_mul_left1,
      wrap64_mul_left2, wrap64_mul_left3, wrap64_mul_left4] <;>
    congr 1
  case Nanosecond => rw [mul_one, wrap64_eq_of_range hr.1 hr.2]
  all_goals
    congr 1
    ring

/-- A value returned through `Except.ok` by `string_to_duration` lies in
the `i64` range. -/
theorem string_to_duration_ok_range {s : List Char} {sp : Span} {v : Int}
    (h : string_to_duration s sp = .ok v) : i64Min ≤ v ∧ v ≤ i64Max := by
  revert h
  unfold string_to_duration
  cases hp : parse_unit_value s with
  | none => intro h; cases h
  | some p =>
    obtain ⟨x, u⟩ := p
    have hr := parse_unit_value_range hp
    cases u <;> intro h <;> simp only [Except.ok.injEq] at h <;> subst h
    · exact hr
    all_goals exact wrap64_range _

/-- The only failure `string_to_duration` produces is the
cannot-convert error whose destination and source spans are both the
token's span and whose details are the token text. -/
theorem string_to_duration_error_shape {s : List Char} {sp : Span} {e : ShellError}
    (h : string_to_duration s sp = .error e) :
    e = ShellError.CantConvertToDuration s sp sp (some durationHelpText) := by
  revert h
  unfold string_to_duration
  cases hp : parse_unit_value s with
  | none =>
    intro h
    injection h with h2
    exact h2.symm
  | some p =>
    obtain ⟨x, u⟩ := p
    cases u <;> intro h <;> cases h

/-- Every failure of the compound loop is a cannot-convert error whose
destination and source spans agree. -/
theorem compoundGo_error_shape (l : List (List Char × Span)) (acc : Int) (e : ShellError)
    (h : compoundGo l acc = .error e) :
    ∃ d sp, e = ShellError.CantConvertToDuration d sp sp (some durationHelpText) := by
  induction l generalizing acc with
  | nil => cases h
  | cons hd tl ih =>
    obtain ⟨sub, ssp⟩ := hd
    cases hs : string_to_duration sub ssp with
    | ok v =>
      simp only [compoundGo, hs] at h
      exact ih _ h
    | error e2 =>
      simp only [compoundGo, hs] at h
      injection h with h2
      subst h2
      exact ⟨sub, ssp, string_to_duration_error_shape hs⟩

/-- C1: the code does NOT fail on signed-64-bit overflow: the token
parser multiplies with unchecked `i64` arithmetic, so
`"9223372036854775807sec"` parses to `Ok` of a wrapped value instead of
an overflow failure, and the compound parser's running `+=` likewise
wraps, so `"9223372036854775807ns 1ns"` yields `i64::MIN` rather than
failing.  This theorem evaluates the embedded code at those failing
inputs, exhibiting the divergence between the code and the claim. -/
theorem c1_overflow_wraps_not_fails :
    string_to_duration ("9223372036854775807sec".toList) (Span.new 0 22) =
      .ok (wrap64 (i64Max * NS_PER_SEC)) ∧
    i64Max < i64Max * NS_PER_SEC ∧
    wrap64 (i64Max * NS_PER_SEC) ≠ i64Max * NS_PER_SEC ∧
    compound_to_duration ("9223372036854775807ns 1ns".toList) (Span.new 0 25) =
      .ok i64Min ∧
    i64Min < 0 :=
  ⟨rfl, by decide, by decide, rfl, by decide⟩

/-- C5 (amended): when the string fails to parse, `action` wraps the
parse error unchanged, and that error is the cannot-convert
classification carrying the offending token text, the token's own span
as BOTH destination and source span (the caller-supplied target span
does not appear in the payload), and the verbatim accepted-units help
string. -/
theorem c5_parse_failure_error (s : List Char) (vsp tsp : Span) (e : ShellError)
    (h : compound_to_duration s vsp = .error e) :
    action (Value.string s vsp) tsp = Value.error e ∧
    ∃ d sp, e = ShellError.CantConvertToDuration d sp sp (some durationHelpText) := by
  refine ⟨?_, compoundGo_error_shape _ _ _ h⟩
  simp only [action, h]

/-- C5 counterexample: on the failing text `"5xx"` with string span
`[10,13)` and caller-supplied target span `[0,5)`, the error payload's
destination span is the token span `[10,13)`, not the target span
`[0,5)` claimed: the produced error differs from the payload the claim
describes. -/
theorem c5_counterexample :
    action (Value.string ("5xx".toList) (Span.new 10 13)) (Span.new 0 5) =
      Value.error (ShellError.CantConvertToDuration ("5xx".toList) (Span.new 10 13)
        (Span.new 10 13) (some durationHelpText)) ∧
    ShellError.CantConvertToDuration ("5xx".toList) (Span.new 10 13) (Span.new 10 13)
        (some durationHelpText) ≠
      ShellError.CantConvertToDuration ("5xx".toList) (Span.new 0 5) (Span.new 10 13)
        (some durationHelpText) :=
  ⟨rfl, by decide⟩

/-- C5 witness: the amended theorem applied at the concrete failing
input `"5xx"`. -/
theorem c5_witness :
    action (Value.string ("5xx".toList) (Span.new 10 13)) (Span.new 3 7) =
      Value.error (ShellError.CantConvertToDuration ("5xx".toList) (Span.new 10 13)
        (Span.new 10 13) (some durationHelpText)) ∧
    ∃ d sp,
      ShellError.CantConvertToDuration ("5xx".toList) (Span.new 10 13) (Span.new 10 13)
          (some durationHelpText) =
        ShellError.CantConvertToDuration d sp sp (some durationHelpText) :=
  c5_parse_failure_error _ _ _ _ rfl

/-- C6: when the string parses, the resulting Duration value carries
the caller-supplied target span, not the string's own span, while the
parse itself runs on the string's own span. -/
theorem c6_success_uses_target_span (s : List Char) (vsp tsp : Span) (d : Int)
    (h : compound_to_duration s vsp = .ok d) :
    action (Value.string s vsp) tsp = Value.duration d tsp := by
  simp only [action, h]

/-- C6 witness: `"7min"` with its own span `[0,4)` converted at target
span `[50,60)` yields a Duration anchored at `[50,60)`. -/
theorem c6_witness :
    action (Value.string ("7min".toList) (Span.new 0 4)) (Span.new 50 60) =
      Value.duration 420000000000 (Span.new 50 60) :=
  c6_success_uses_target_span _ _ _ _ rfl

/-- C7: `action` returns Duration inputs unchanged (idempotent
passthrough) and Error inputs unchanged (no re-wrapping), for any
target span. -/
theorem c7_duration_error_passthrough :
    (∀ (d : Int) (sp tsp : Span), action (Value.duration d sp) tsp = Value.duration d sp) ∧
    (∀ (e : ShellError) (tsp : Span), action (Value.error e) tsp = Value.error e) :=
  ⟨fun _ _ _ => rfl, fun _ _ => rfl⟩

/-- Splitting an all-whitespace string yields no tokens. -/
theorem splitWsIdxGo_all_ws (s : List Char) (pos : Nat)
    (h : ∀ c ∈ s, rustIsWhitespace c = true) :
    splitWsIdxGo s pos none = [] := by
  induction s generalizing pos with
  | nil => rfl
  | cons c rest ih =>
    have hc : rustIsWhitespace c = true := h c (by simp)
    simp only [splitWsIdxGo, hc, if_true]
    exact ih _ fun d hd => h d (by simp [hd])

/-- C8: an empty or all-whitespace input sums no tokens, so the
compound parser succeeds with 0 and `action` yields a zero Duration at
the target span. -/
theorem c8_whitespace_yields_zero (s : List Char) (span tsp : Span)
    (h : ∀ c ∈ s, rustIsWhitespace c = true) :
    compound_to_duration s span = .ok 0 ∧
    action (Value.string s span) tsp = Value.duration 0 tsp := by
  have h1 : compound_to_duration s span = .ok 0 := by
    unfold compound_to_duration split_whitespace_indices
    rw [splitWsIdxGo_all_ws s 0 h]
    rfl
  exact ⟨h1, by simp only [action, h1]⟩

/-- C8 witness: the empty string and a two-space string both convert
to a zero Duration. -/
theorem c8_witness :
    (compound_to_duration [] (Span.new 0 0) = .ok 0 ∧
      action (Value.string [] (Span.new 0 0)) (Span.new 1 2) =
        Value.duration 0 (Span.new 1 2)) ∧
    (compound_to_duration ("  ".toList) (Span.new 3 5) = .ok 0 ∧
      action (Value.string ("  ".toList) (Span.new 3 5)) (Span.new 9 9) =
        Value.duration 0 (Span.new 9 9)) :=
  ⟨c8_whitespace_yields_zero _ _ _ (by decide),
   c8_whitespace_yields_zero _ _ _ (by decide)⟩

/-- C4: the Applicator maps a total per-element function over the
input, so the output has exactly the input's length with elements in
order; with no paths each element becomes `action` of itself, and for a
String element that is a Duration value on success and an Error value
on failure — never an abort of the sequence. -/
theorem c4_applicator_shape (column_paths : List CellPath) (span : Span)
    (vals : List Value) :
    (into_duration column_paths span vals).length = vals.length ∧
    into_duration [] span vals = vals.map (fun v => action v span) ∧
    ∀ (s : List Char) (ssp : Span),
      (∃ d, compound_to_duration s ssp = .ok d ∧
        action (Value.string s ssp) span = Value.duration d span) ∨
      (∃ e, compound_to_duration s ssp = .error e ∧
        action (Value.string s ssp) span = Value.error e) := by
  refine ⟨by simp [into_duration], rfl, ?_⟩
  intro s ssp
  cases hc : compound_to_duration s ssp with
  | ok d => exact Or.inl ⟨d, rfl, by simp only [action, hc]⟩
  | error e => exact Or.inr ⟨e, rfl, by simp only [action, hc]⟩

/-- C10: with several paths, the element is threaded through the
updates sequentially; an update that fails makes the element's output
exactly that Error value, whatever `v` has accumulated from earlier
successful updates and whatever paths remain (they are not attempted),
while a successful update passes its result to the remaining paths. -/
theorem c10_sequential_paths_first_failure :
    (∀ (span : Span) (p : CellPath) (ps : List CellPath) (v : Value) (e : ShellError),
      update_cell_path p.members v (fun old => action old span) = .error e →
      update_at_paths span (p :: ps) v = Value.error e) ∧
    (∀ (span : Span) (p : CellPath) (ps : List CellPath) (v v2 : Value),
      update_cell_path p.members v (fun old => action old span) = .ok v2 →
      update_at_paths span (p :: ps) v = update_at_paths span ps v2) := by
  constructor
  · intro span p ps v e h
    simp only [update_at_paths, h]
  · intro span p ps v v2 h
    simp only [update_at_paths, h]

/-- C10 witness: a record without column `x` fails that path and the
whole element becomes the path-resolution error even though another
path follows; a list with index 0 succeeds and threads the updated
element to the remaining paths. -/
theorem c10_witness :
    update_at_paths (Span.new 0 1)
        (CellPath.mk [PathMember.str ("x".toList) (Span.new 2 3)] ::
          [CellPath.mk [PathMember.str ("a".toList) (Span.new 2 3)]])
        (Value.record [("a".toList)] [Value.int 5 (Span.new 4 5)] (Span.new 4 6)) =
      Value.error (ShellError.CantFindColumn ("x".toList) (Span.new 2 3) (Span.new 4 6)) ∧
    update_at_paths (Span.new 0 1)
        (CellPath.mk [PathMember.int 0 (Span.new 2 3)] ::
          [CellPath.mk [PathMember.int 7 (Span.new 2 3)]])
        (Value.list [Value.string ("3ns".toList) (Span.new 4 7)] (Span.new 4 7)) =
      update_at_paths (Span.new 0 1) [CellPath.mk [PathMember.int 7 (Span.new 2 3)]]
        (Value.list [Value.duration 3 (Span.new 0 1)] (Span.new 4 7)) :=
  ⟨c10_sequential_paths_first_failure.1 _ _ _ _ _ rfl,
   c10_sequential_paths_first_failure.2 _ _ _ _ _ rfl⟩

theorem utf8Len_cons (c : Char) (l : List Char) :
    utf8Len (c :: l) = c.utf8Size + utf8Len l := by
  simp [utf8Len]

theorem utf8Len_append (a b : List Char) :
    utf8Len (a ++ b) = utf8Len a + utf8Len b := by
  simp [utf8Len]

theorem utf8Len_reverse (l : List Char) : utf8Len l.reverse = utf8Len l := by
  simp [utf8Len, List.sum_reverse]

/-- Every token/offset pair the splitting worker emits decomposes its
input: either the token lies wholly in `l` at byte offset
`off - pos`, or it completes the token the state already carries. -/
theorem splitWsIdxGo_mem_decomp (l : List Char) (pos : Nat)
    (st : Option (Nat × List Char))
    (hinv : ∀ st0 acc, st = some (st0, acc) → pos = st0 + utf8Len acc)
    (t : List Char) (off : Nat)
    (hmem : (t, off) ∈ splitWsIdxGo l pos st) :
    (∃ pre post, l = pre ++ t ++ post ∧ off = pos + utf8Len pre) ∨
    (∃ st0 acc, st = some (st0, acc) ∧ off = st0 ∧
      ∃ mid post, l = mid ++ post ∧ t = acc.reverse ++ mid) := by
  induction l generalizing pos st with
  | nil =>
    cases st with
    | none => simp [splitWsIdxGo] at hmem
    | some p =>
      obtain ⟨st0, acc⟩ := p
      simp only [splitWsIdxGo, List.mem_singleton, Prod.mk.injEq] at hmem
      obtain ⟨ht, hoff⟩ := hmem
      exact Or.inr ⟨st0, acc, rfl, hoff, [], [], rfl, by simp [ht]⟩
  | cons c rest ih =>
    cases st with
    | none =>
      by_cases hw : rustIsWhitespace c = true
      · simp only [splitWsIdxGo, hw, if_true] at hmem
        rcases ih (pos + c.utf8Size) none (fun _ _ h => by cases h) hmem with
          ⟨pre, post, hrest, hoff⟩ | ⟨_, _, h, -⟩
        · refine Or.inl ⟨c :: pre, post, by simp [hrest], ?_⟩
          rw [utf8Len_cons]
          omega
        · cases h
      · simp only [splitWsIdxGo, hw, if_false] at hmem
        have hinv2 : ∀ st0 acc,
            (some (pos, [c]) : Option (Nat × List Char)) = some (st0, acc) →
            pos + c.utf8Size = st0 + utf8Len acc := by
          intro st0 acc h
          simp only [Option.some.injEq, Prod.mk.injEq] at h
          obtain ⟨h1, h2⟩ := h
          subst h1
          subst h2
          simp [utf8Len]
        rcases ih (pos + c.utf8Size) (some (pos, [c])) hinv2 hmem with
          ⟨pre, post, hrest, hoff⟩ | ⟨st0, acc, hsome, hoff, mid, post, hrest, ht⟩
        · refine Or.inl ⟨c :: pre, post, by simp [hrest], ?_⟩
          rw [utf8Len_cons]
          omega
        · simp only [Option.some.injEq, Prod.mk.injEq] at hsome
          obtain ⟨h1, h2⟩ := hsome
          subst h1
          subst h2
          refine Or.inl ⟨[], post, ?_, ?_⟩
          · simp only [List.reverse_singleton, List.singleton_append] at ht
            simp [hrest, ht]
          · rw [hoff]
            simp [utf8Len]
    | some p =>
      obtain ⟨st0, acc⟩ := p
      by_cases hw : rustIsWhitespace c = true
      · simp only [splitWsIdxGo, hw, if_true, List.mem_cons, Prod.mk.injEq] at hmem
        rcases hmem with ⟨ht, hoff⟩ | hmem2
        · exact Or.inr ⟨st0, acc, rfl, hoff, [], c :: rest, by simp, by simp [ht]⟩
        · rcases ih (pos + c.utf8Size) none (fun _ _ h => by cases h) hmem2 with
            ⟨pre, post, hrest, hoff⟩ | ⟨_, _, h, -⟩
          · refine Or.inl ⟨c :: pre, post, by simp [hrest], ?_⟩
            rw [utf8Len_cons]
            omega
          · cases h
      · simp only [splitWsIdxGo, hw, if_false] at hmem
        have hpos : pos = st0 + utf8Len acc := hinv st0 acc rfl
        have hinv2 : ∀ st0' acc',
            (some (st0, c :: acc) : Option (Nat × List Char)) = some (st0', acc') →
            pos + c.utf8Size = st0' + utf8Len acc' := by
          intro st0' acc' h
          simp only [Option.some.injEq, Prod.mk.injEq] at h
          obtain ⟨h1, h2⟩ := h
          subst h1
          subst h2
          rw [utf8Len_cons]
          omega
        rcases ih (pos + c.utf8Size) (some (st0, c :: acc)) hinv2 hmem with
          ⟨pre, post, hrest, hoff⟩ | ⟨st0', acc', hsome, hoff, mid, post, hrest, ht⟩
        · refine Or.inl ⟨c :: pre, post, by simp [hrest], ?_⟩
          rw [utf8Len_cons]
          omega
        · simp only [Option.some.injEq, Prod.mk.injEq] at hsome
          obtain ⟨h1, h2⟩ := hsome
          subst h1
          subst h2
          refine Or.inr ⟨st0, acc, rfl, hoff, c :: mid, post, by simp [hrest], ?_⟩
          rw [ht, List.reverse_cons, List.append_assoc, List.singleton_append]

/-- C9: every token of `split_whitespace_indices` occurs in the input
at some byte offset `i` (the byte length of the characters before it),
and its span is exactly `[span.start + i, span.start + i + len(t))` —
the index-based characterization of the span the pointer arithmetic of
the source computes. -/
theorem c9_token_span_offsets (s : List Char) (span : Span) (t : List Char) (sp : Span)
    (hmem : (t, sp) ∈ split_whitespace_indices s span) :
    ∃ pre post, s = pre ++ t ++ post ∧ sp.start = span.start + utf8Len pre ∧
      sp.stop = sp.start + utf8Len t := by
  simp only [split_whitespace_indices, List.mem_map, Prod.mk.injEq] at hmem
  obtain ⟨⟨t2, off⟩, hmem2, ht, hsp⟩ := hmem
  subst ht
  rcases splitWsIdxGo_mem_decomp s 0 none (fun _ _ h => by cases h) t2 off hmem2 with
    ⟨pre, post, hs, hoff⟩ | ⟨_, _, h, -⟩
  · refine ⟨pre, post, hs, ?_, ?_⟩
    · rw [← hsp]
      simp only [Span.new]
      omega
    · rw [← hsp]
      simp [Span.new]
  · cases h

/-- C9 witness: in `"1ns  x"` occupying bytes `[5, 11)`, the token
`"x"` is reported with span `[10, 11)`, and the theorem recovers its
byte offset 5 within the string. -/
theorem c9_witness :
    ∃ pre post, ("1ns  x".toList : List Char) = pre ++ ("x".toList) ++ post ∧
      (Span.new 10 11).start = (Span.new 5 11).start + utf8Len pre ∧
      (Span.new 10 11).stop = (Span.new 10 11).start + utf8Len ("x".toList) :=
  c9_token_span_offsets ("1ns  x".toList) (Span.new 5 11) ("x".toList) (Span.new 10 11)
    (by decide)

/-- A successful token parse does not depend on the span argument, which
only decorates the failure payload. -/
theorem string_to_duration_ok_span_irrel {s : List Char} {sp1 : Span} {v : Int}
    (sp2 : Span) (h : string_to_duration s sp1 = .ok v) :
    string_to_duration s sp2 = .ok v := by
  revert h
  unfold string_to_duration
  cases parse_unit_value s with
  | none => intro h; cases h
  | some p =>
    obtain ⟨x, u⟩ := p
    cases u <;> exact id

/-- Consuming a run of non-whitespace characters extends the token in
progress and advances the byte position. -/
theorem splitWsIdxGo_extend (t l : List Char) (pos st0 : Nat) (acc : List Char)
    (h : ∀ c ∈ t, rustIsWhitespace c = false) :
    splitWsIdxGo (t ++ l) pos (some (st0, acc)) =
      splitWsIdxGo l (pos + utf8Len t) (some (st0, t.reverse ++ acc)) := by
  induction t generalizing pos acc with
  | nil => simp [utf8Len]
  | cons c t2 ih =>
    have hc : rustIsWhitespace c = false := h c (by simp)
    simp only [List.cons_append, splitWsIdxGo, hc, if_false, List.append_eq]
    rw [ih _ _ fun d hd => h d (by simp [hd])]
    have h1 : pos + c.utf8Size + utf8Len t2 = pos + utf8Len (c :: t2) := by
      rw [utf8Len_cons]
      omega
    have h2 : t2.reverse ++ (c :: acc) = (c :: t2).reverse ++ acc := by simp
    rw [h1, h2]
    simp

/-- Entering a non-empty run of non-whitespace characters from the
between-tokens state opens a token at the current position. -/
theorem splitWsIdxGo_token (t l : List Char) (pos : Nat)
    (hne : t ≠ []) (h : ∀ c ∈ t, rustIsWhitespace c = false) :
    splitWsIdxGo (t ++ l) pos none =
      splitWsIdxGo l (pos + utf8Len t) (some (pos, t.reverse)) := by
  cases t with
  | nil => exact absurd rfl hne
  | cons c t2 =>
    have hc : rustIsWhitespace c = false := h c (by simp)
    simp only [List.cons_append, splitWsIdxGo, hc, if_false, List.append_eq]
    rw [splitWsIdxGo_extend t2 l _ _ _ fun d hd => h d (by simp [hd])]
    have h1 : pos + c.utf8Size + utf8Len t2 = pos + utf8Len (c :: t2) := by
      rw [utf8Len_cons]
      omega
    have h2 : t2.reverse ++ [c] = (c :: t2).reverse := by simp
    rw [h1, h2]
    simp

/-- A trailing non-empty non-whitespace run is emitted as the final
token at its starting position. -/
theorem splitWsIdxGo_last (t : List Char) (pos : Nat)
    (hne : t ≠ []) (h : ∀ c ∈ t, rustIsWhitespace c = false) :
    splitWsIdxGo t pos none = [(t, pos)] := by
  have h2 := splitWsIdxGo_token t [] pos hne h
  simpa [splitWsIdxGo] using h2

/-- Splitting two non-whitespace tokens joined by one whitespace
character yields exactly those tokens with byte-accurate spans. -/
theorem split_whitespace_indices_two (a b : List Char) (c : Char) (span : Span)
    (ha : a ≠ []) (hb : b ≠ [])
    (hwa : ∀ d ∈ a, rustIsWhitespace d = false)
    (hwb : ∀ d ∈ b, rustIsWhitespace d = false)
    (hc : rustIsWhitespace c = true) :
    split_whitespace_indices (a ++ c :: b) span =
      [(a, Span.new span.start (span.start + utf8Len a)),
       (b, Span.new (span.start + utf8Len a + c.utf8Size)
         (span.start + utf8Len a + c.utf8Size + utf8Len b))] := by
  unfold split_whitespace_indices
  rw [splitWsIdxGo_token a (c :: b) 0 ha hwa]
  simp only [splitWsIdxGo, hc, if_true]
  rw [splitWsIdxGo_last b _ hb hwb]
  simp [Span.new]
  omega

/-- C3: joining two successfully parsing tokens with a whitespace
character sums their values whenever the sum stays in the `i64` range;
and in general the compound loop returns the first token-level failure,
whatever tokens follow it. -/
theorem c3_compound_sum_and_first_failure :
    (∀ (a b : List Char) (c : Char) (span spa spb : Span) (x y : Int),
      a ≠ [] → b ≠ [] →
      (∀ d ∈ a, rustIsWhitespace d = false) →
      (∀ d ∈ b, rustIsWhitespace d = false) →
      rustIsWhitespace c = true →
      string_to_duration a spa = .ok x →
      string_to_duration b spb = .ok y →
      i64Min ≤ x + y → x + y ≤ i64Max →
      compound_to_duration (a ++ c :: b) span = .ok (x + y)) ∧
    (∀ (pre : List (List Char × Span)) (tok : List Char) (tsp : Span) (e : ShellError)
        (rest : List (List Char × Span)) (acc : Int),
      (∀ p ∈ pre, ∃ v, string_to_duration p.1 p.2 = .ok v) →
      string_to_duration tok tsp = .error e →
      compoundGo (pre ++ (tok, tsp) :: rest) acc = .error e) := by
  constructor
  · intro a b c span spa spb x y ha hb hwa hwb hc hx hy hlo hhi
    have hxr := string_to_duration_ok_range hx
    have hyr := string_to_duration_ok_range hy
    have hx2 := string_to_duration_ok_span_irrel
      (Span.new span.start (span.start + utf8Len a)) hx
    have hy2 := string_to_duration_ok_span_irrel
      (Span.new (span.start + utf8Len a + c.utf8Size)
        (span.start + utf8Len a + c.utf8Size + utf8Len b)) hy
    unfold compound_to_duration
    rw [split_whitespace_indices_two a b c span ha hb hwa hwb hc]
    simp only [compoundGo, hx2, hy2]
    have e1 : i64Add 0 x = x := by
      unfold i64Add
      rw [zero_add]
      exact wrap64_eq_of_range hxr.1 hxr.2
    rw [e1]
    have e2 : i64Add x y = x + y := by
      unfold i64Add
      exact wrap64_eq_of_range hlo hhi
    rw [e2]
  · intro pre tok tsp e rest acc hall herr
    induction pre generalizing acc with
    | nil => simp only [List.nil_append, compoundGo, herr]
    | cons p pre2 ih =>
      obtain ⟨ps, psp⟩ := p
      obtain ⟨v, hv⟩ := hall (ps, psp) (by simp)
      simp only [List.cons_append, compoundGo, hv]
      exact ih _ fun q hq => hall q (List.mem_cons_of_mem _ hq)

/-- C3 witness: `"1ns 2ns"` sums to 3 and the failing token `"5xx"`
after a good token is the failure returned. -/
theorem c3_witness :
    compound_to_duration ("1ns 2ns".toList) (Span.new 0 7) = .ok 3 ∧
    compoundGo ([(("1ns".toList), Span.new 0 3)] ++
        (("5xx".toList), Span.new 4 7) :: [(("2ns".toList), Span.new 8 11)]) 0 =
      .error (ShellError.CantConvertToDuration ("5xx".toList) (Span.new 4 7)
        (Span.new 4 7) (some durationHelpText)) := by
  constructor
  · have h := c3_compound_sum_and_first_failure.1 ("1ns".toList) ("2ns".toList) ' '
      (Span.new 0 7) (Span.new 0 3) (Span.new 4 7) 1 2
      (by decide) (by decide) (by decide) (by decide) (by decide) rfl rfl
      (by decide) (by decide)
    exact h
  · exact c3_compound_sum_and_first_failure.2 _ _ _ _ _ _
      (by intro p hp; simp only [List.mem_singleton] at hp; subst hp; exact ⟨1, rfl⟩) rfl

/-- `takeDigits` consumes exactly a leading digit run when the next
character is not a digit. -/
theorem takeDigits_append_digits (ds : List Char) (c : Char) (tl : List Char)
    (hds : ∀ d ∈ ds, d.isDigit = true) (hc : c.isDigit = false) :
    takeDigits (ds ++ c :: tl) = (ds, c :: tl) := by
  induction ds with
  | nil => simp [takeDigits, hc]
  | cons d ds2 ih =>
    have hd : d.isDigit = true := hds d (by simp)
    simp only [List.cons_append, takeDigits, hd, if_true, List.append_eq]
    rw [ih fun e he => hds e (by simp [he])]

/-- A digit character is not the minus sign. -/
theorem isDigit_ne_minus {d : Char} (h : d.isDigit = true) : ¬d = '-' := by
  intro hd
  subst hd
  exact absurd h (by decide)

set_option maxHeartbeats 1000000 in
/-- Every accepted unit spelling starts with a non-digit character. -/
theorem lookupUnit_head_not_digit {su : List Char} {u : DurationUnit}
    (h : lookupUnit su = some u) :
    ∃ c tl, su = c :: tl ∧ c.isDigit = false := by
  unfold lookupUnit at h
  split_ifs at h with h1 h2 h3 h4 h5 h6 h7 h8 h9 h10
  · exact ⟨'n', ['s'], by rw [h1]; rfl, by decide⟩
  · exact ⟨'u', ['s'], by rw [h2]; rfl, by decide⟩
  · exact ⟨'µ', ['s'], by rw [h3]; rfl, by decide⟩
  · exact ⟨'μ', ['s'], by rw [h4]; rfl, by decide⟩
  · exact ⟨'m', ['s'], by rw [h5]; rfl, by decide⟩
  · exact ⟨'s', ['e', 'c'], by rw [h6]; rfl, by decide⟩
  · exact ⟨'m', ['i', 'n'], by rw [h7]; rfl, by decide⟩
  · exact ⟨'h', ['r'], by rw [h8]; rfl, by decide⟩
  · exact ⟨'d', ['a', 'y'], by rw [h9]; rfl, by decide⟩
  · exact ⟨'w', ['k'], by rw [h10]; rfl, by decide⟩

/-- C2: a valid single token, an optional minus sign followed by a
non-empty digit run and an accepted unit spelling, parses to exactly
the signed magnitude times the unit's nanosecond multiplier, provided
magnitude and product lie in the `i64` range; the three microsecond
spellings share one multiplier. -/
theorem c2_single_token_exact
    (ds su : List Char) (u : DurationUnit) (neg : Bool) (sp : Span) (x : Int)
    (hds : ds ≠ []) (hdig : ∀ d ∈ ds, d.isDigit = true)
    (hu : lookupUnit su = some u)
    (hx : x = signedMagnitude neg ds)
    (hlo : i64Min ≤ x) (hhi : x ≤ i64Max)
    (plo : i64Min ≤ x * unitMult u) (phi : x * unitMult u ≤ i64Max) :
    string_to_duration ((if neg then ['-'] else []) ++ (ds ++ su)) sp =
      .ok (x * unitMult u) := by
  obtain ⟨c, tl, hsu, hc⟩ := lookupUnit_head_not_digit hu
  have hsign : splitSign ((if neg then ['-'] else []) ++ (ds ++ su)) = (neg, ds ++ su) := by
    cases neg with
    | true => simp [splitSign]
    | false =>
      cases ds with
      | nil => exact absurd rfl hds
      | cons d ds2 =>
        have hd : ¬d = '-' := isDigit_ne_minus (hdig d (by simp))
        simp [splitSign, hd]
  have htd : takeDigits (ds ++ su) = (ds, su) := by
    rw [hsu]
    exact takeDigits_append_digits ds c tl hdig hc
  have hsune : su ≠ [] := by
    rw [hsu]
    simp
  have hparse : parse_unit_value ((if neg then ['-'] else []) ++ (ds ++ su)) =
      some (x, u) := by
    simp only [parse_unit_value, hsign, htd, hu]
    rw [if_neg (by simp [hds, hsune]), if_pos ⟨hx ▸ hlo, hx ▸ hhi⟩, ← hx]
  rw [string_to_duration_parsed sp hparse, wrap64_eq_of_range plo phi]

/-- C2 witness: `4us`, `4µs` and `4μs` all parse to 4000 ns, and
`7min` parses to `7 * 60e9` ns. -/
theorem c2_witness :
    string_to_duration ("4us".toList) (Span.new 0 3) = .ok 4000 ∧
    string_to_duration ("4µs".toList) (Span.new 0 4) = .ok 4000 ∧
    string_to_duration ("4μs".toList) (Span.new 0 4) = .ok 4000 ∧
    string_to_duration ("7min".toList) (Span.new 0 4) = .ok 420000000000 :=
  ⟨c2_single_token_exact ['4'] ("us".toList) .Microsecond false (Span.new 0 3) 4
      (by decide) (by decide) (by decide) (by decide) (by decide) (by decide)
      (by decide) (by decide),
   c2_single_token_exact ['4'] ("µs".toList) .Microsecond false (Span.new 0 4) 4
      (by decide) (by decide) (by decide) (by decide) (by decide) (by decide)
      (by decide) (by decide),
   c2_single_token_exact ['4'] ("μs".toList) .Microsecond false (Span.new 0 4) 4
      (by decide) (by decide) (by decide) (by decide) (by decide) (by decide)
      (by decide) (by decide),
   c2_single_token_exact ['7'] ("min".toList) .Minute false (Span.new 0 4) 7
      (by decide) (by decide) (by decide) (by decide) (by decide) (by decide)
      (by decide) (by decide)⟩
